import Mathlib

/-!
# Spider-Tracker match-detection and deduplication engine: a shallow embedding

This file embeds the core logic of the Spider-Tracker monitor (the
keyword matcher, the film-info resolver, the release-date normalizer,
the theatre-listing date selection, the cinema matcher, the match-key
deduplicator and the monitor cycle) as executable Lean definitions, and
proves properties of those definitions.

JavaScript conventions modelled explicitly:
* a possibly-absent string field is `Option String`; JS truthiness of
  such a value (`null`/`undefined`/`""` are falsy) is `jsTruthyS`;
* `a || b` on such values is `jsOrS`;
* `String.prototype.includes` is `jsIncludes` (substring test);
* `Array.prototype.sort()` on strings is `sortStr` (lexicographic);
* `Array.prototype.join(',')` is `commaJoin`;
* a JS `Set` is a duplicate-free `List String` grown with `addUnique`;
* a JS `Map` is an insertion-ordered association list.

The generic calendar parser (`new Date(string)`, whose exact grammar is
engine-defined) is a parameter `jsParse : String -> Option JsDate` of the
date normalizer; everything else is translated from the source.
-/

/-- JS truthiness of a nullable string value: `null`/`undefined` (here
`none`) and the empty string are falsy. -/
def jsTruthyS : Option String → Bool
  | none => false
  | some s => !(s = "")

/-- JS `a || b` on nullable string values. -/
def jsOrS (a b : Option String) : Option String :=
  if jsTruthyS a then a else b

/-- Whether the first character list is an initial segment of the second. -/
def startsWithChars : List Char → List Char → Bool
  | [], _ => true
  | _ :: _, [] => false
  | a :: s, b :: t => a = b && startsWithChars s t

/-- Whether the first character list occurs contiguously in the second. -/
def hasInfixChars (sub : List Char) : List Char → Bool
  | [] => startsWithChars sub []
  | c :: t => startsWithChars sub (c :: t) || hasInfixChars sub t

/-- JS `haystack.includes(needle)`: substring containment. -/
def jsIncludes (haystack needle : String) : Bool :=
  hasInfixChars needle.data haystack.data

/-- JS `Set.prototype.add`: append if not already present (insertion
order preserved). -/
def addUnique (l : List String) (x : String) : List String :=
  if l.contains x then l else l ++ [x]

/-- JS `Array.prototype.join(',')`. -/
def commaJoin : List String → String
  | [] => ""
  | [x] => x
  | x :: y :: t => x ++ "," ++ commaJoin (y :: t)

/-- Lexicographic comparison of character lists (JS `<` on strings). -/
def charListLt : List Char → List Char → Bool
  | [], [] => false
  | [], _ :: _ => true
  | _ :: _, [] => false
  | a :: s, b :: t => if a < b then true else if b < a then false else charListLt s t

/-- JS `a < b` on strings: lexicographic by code unit. -/
def jsStrLt (a b : String) : Bool :=
  charListLt a.data b.data

/-- Insert a string into a sorted list (lexicographic order). -/
def insertSorted (x : String) : List String → List String
  | [] => [x]
  | y :: t => if jsStrLt y x then y :: insertSorted x t else x :: y :: t

/-- JS `Array.prototype.sort()` on an array of strings: sorts
lexicographically. -/
def sortStr (l : List String) : List String :=
  l.foldr insertSorted []

/-- JS `String(s).padStart(2, '0')`. -/
def padStart2 (s : String) : String :=
  if s.length ≥ 2 then s else String.mk (List.replicate (2 - s.length) '0') ++ s

/-- JS `s.toLowerCase()` (per-character lowering). -/
def strToLower (s : String) : String :=
  String.mk (s.data.map Char.toLower)

/-! ## Keyword matcher (source: `checkKeywordSet` / `checkKeywordSets`) -/

/-- The inner test of `checkKeywordSet` (and, inlined, of
`checkCinemaKeywords`): every keyword of the set occurs, case
insensitively, as a substring of the candidate name. -/
def allKeywordsFound (keywordSet : List String) (name : String) : Bool :=
  keywordSet.all (fun keyword => jsIncludes (strToLower name) (strToLower keyword))

/-- Source `checkKeywordSet(keywordSet, filmNames)`: the film names all
of whose keywords are found; an empty (or, in JS, non-array) keyword set
matches nothing. -/
def checkKeywordSet (keywordSet : List String) (filmNames : List String) : List String :=
  if keywordSet.isEmpty then []
  else filmNames.filter (fun filmName => allKeywordsFound keywordSet filmName)

/-- One match record of `checkKeywordSets`. -/
structure FilmMatch where
  keywordSet : List String
  matchingFilms : List String
  setIndex : Nat
  deriving Repr, DecidableEq

/-- Source `checkKeywordSets(keywordSets, filmNames)`: every keyword set
with a non-empty match list, in configuration order with its index. -/
def checkKeywordSets (keywordSets : List (List String)) (filmNames : List String) : List FilmMatch :=
  keywordSets.enum.filterMap (fun p =>
    let matchingFilms := checkKeywordSet p.2 filmNames
    if matchingFilms.isEmpty then none
    else some { keywordSet := p.2, matchingFilms := matchingFilms, setIndex := p.1 })

/-! ## Entity extraction (source: `getMovies` / `getAllFilmNames`) -/

/-- A nested sub-film record of a movie record. -/
structure FilmRec where
  filmName : Option String
  filmCommonCode : Option String
  releaseDate : Option String
  deriving Repr, DecidableEq

/-- A movie record of the primary response (`output.mv` entry). A
missing or non-array `films` field is modelled as the empty list (the
source skips the loop in both cases). -/
structure MovieRec where
  filmName : Option String
  releaseDate : Option String
  year : Option Nat
  month : Option Nat
  day : Option Nat
  films : List FilmRec
  deriving Repr, DecidableEq

/-- The primary response body, reduced to what `getMovies` inspects:
`some mvs` when `responseData.output.mv` is a well-formed array, `none`
when absent or malformed. -/
def ResponseData : Type := Option (List MovieRec)

/-- Source `getMovies(responseData)`: the `output.mv` array, or `[]` on
any malformed shape. -/
def getMovies (responseData : ResponseData) : List MovieRec :=
  responseData.getD []

/-- Source `getAllFilmNames(movies)`: the set (insertion-ordered,
duplicate-free) of truthy movie-level and sub-film names. -/
def getAllFilmNames (movies : List MovieRec) : List String :=
  movies.foldl (fun acc movie =>
    let acc := match movie.filmName with
      | some n => if jsTruthyS (some n) then addUnique acc n else acc
      | none => acc
    movie.films.foldl (fun a film =>
      match film.filmName with
      | some n => if jsTruthyS (some n) then addUnique a n else a
      | none => a) acc) []

/-! ## Date handling (source: `formatDateFromParts` /
`convertReleaseDateToAPIFormat` and the `dated` computation of
`fetchTheaterListings`) -/

/-- Source `formatDateFromParts(year, month, day)`. -/
def formatDateFromParts (year month day : Nat) : String :=
  toString year ++ "-" ++ padStart2 (toString month) ++ "-" ++ padStart2 (toString day)

/-- The JS regex test `/^\d{4}-\d{2}-\d{2}$/.test(s)` (ASCII digits). -/
def isCanonicalDate (s : String) : Bool :=
  match s.data with
  | [a, b, c, d, e, f, g, h, i, j] =>
    a.isDigit && b.isDigit && c.isDigit && d.isDigit && e = '-' &&
    f.isDigit && g.isDigit && h = '-' && i.isDigit && j.isDigit
  | _ => false

/-- The result of a successful `new Date(string)` parse: full year,
1-based month (`getMonth() + 1`), day of month. -/
def JsDate : Type := Nat × Nat × Nat

/-- Source `convertReleaseDateToAPIFormat(releaseDateStr)`, parameterized
by the engine's generic calendar parser `jsParse` (`new Date(string)`;
`none` models an Invalid Date result). Note that in JS `new Date(string)`
signals failure by returning an Invalid Date, never by throwing, so the
`catch` block of the source (the manual month-table fallback) is
unreachable: when generic parsing fails the function returns `null`. -/
def convertReleaseDateToAPIFormat (jsParse : String → Option JsDate) (releaseDateStr : String) : Option String :=
  if releaseDateStr = "" then none
  else if isCanonicalDate releaseDateStr then some releaseDateStr
  else match jsParse releaseDateStr with
    | some (year, month, day) =>
      some (toString year ++ "-" ++ padStart2 (toString month) ++ "-" ++ padStart2 (toString day))
    | none => none

/-- The fixed three-letter month abbreviation table of the source. -/
def monthTable : List (String × String) :=
  [("Jan", "01"), ("Feb", "02"), ("Mar", "03"), ("Apr", "04"), ("May", "05"), ("Jun", "06"),
   ("Jul", "07"), ("Aug", "08"), ("Sep", "09"), ("Oct", "10"), ("Nov", "11"), ("Dec", "12")]

/-- A JS regex `\w` word character. -/
def isWordChar (c : Char) : Bool :=
  c.isAlpha || c.isDigit || c = '_'

/-- Split a character list at the longest initial run satisfying `p`. -/
def takeWhileChars (p : Char → Bool) : List Char → List Char × List Char
  | [] => ([], [])
  | c :: t =>
    if p c then
      let r := takeWhileChars p t
      (c :: r.1, r.2)
    else ([], c :: t)

/-- The manual month-table conversion of the source's `catch` block
(`releaseDateStr.match(/(\w+)\s+(\d+),\s+(\d+)/)` then
`months[monthName.substring(0,3)]` and day padding), restricted to
strings exactly of the form `"MonthName Day, Year"`: this is the
step (3) the specification describes. -/
def monthTableStep (s : String) : Option String :=
  let w := takeWhileChars isWordChar s.data
  match w.1, w.2 with
  | _ :: _, ' ' :: r2 =>
    let d := takeWhileChars Char.isDigit r2
    (match d.1, d.2 with
     | _ :: _, ',' :: ' ' :: r4 =>
       let y := takeWhileChars Char.isDigit r4
       (match y.1, y.2 with
        | _ :: _, [] =>
          (match monthTable.lookup (String.mk (w.1.take 3)) with
           | some month => some (String.mk y.1 ++ "-" ++ month ++ "-" ++ padStart2 (String.mk d.1))
           | none => none)
        | _, _ => none)
     | _, _ => none)
  | _, _ => none

/-- The `dated` computation of `fetchTheaterListings` (source lines
337-366): normalize the optional release date and choose between it and
today's date (`todayFormatted`, a `YYYY-MM-DD` string) by JS string
comparison. -/
def computeDated (jsParse : String → Option JsDate) (releaseDate : Option String) (todayFormatted : String) : String :=
  let releaseDateFormatted :=
    match releaseDate with
    | some s => if jsTruthyS (some s) then convertReleaseDateToAPIFormat jsParse s else none
    | none => none
  match releaseDateFormatted with
  | some f => if jsStrLt f todayFormatted then todayFormatted else f
  | none => todayFormatted

/-! ## Film info resolver (source: `extractFilmInfo`) -/

/-- The date assembled from separate year/month/day fields
(`movie.year && movie.month && movie.day ? formatDateFromParts(...) : null`);
a missing or zero field (JS falsy number) yields `null`. -/
def partsDate (movie : MovieRec) : Option String :=
  match movie.year, movie.month, movie.day with
  | some y, some m, some d =>
    if y ≠ 0 ∧ m ≠ 0 ∧ d ≠ 0 then some (formatDateFromParts y m d) else none
  | _, _, _ => none

/-- The movie-level release date of `extractFilmInfo`
(`movie.releaseDate || partsDate`). -/
def movieLevelDate (movie : MovieRec) : Option String :=
  jsOrS movie.releaseDate (partsDate movie)

/-- The `(filmCommonCode, releaseDate)` candidate pairs produced by the
first inner loop of `extractFilmInfo` for one movie record (guarded by
the movie-level name matching). -/
def filmInfoEventsA (movie : MovieRec) (matchingFilms : List String) : List (String × Option String) :=
  let movieNameMatches := match movie.filmName with
    | some n => !(n = "") && matchingFilms.contains n
    | none => false
  if movieNameMatches then
    movie.films.filterMap (fun film =>
      match film.filmCommonCode with
      | some c => if c ≠ "" then some (c, jsOrS film.releaseDate (movieLevelDate movie)) else none
      | none => none)
  else []

/-- The `(filmCommonCode, releaseDate)` candidate pairs produced by the
second inner loop of `extractFilmInfo` for one movie record (guarded by
the sub-film name matching). -/
def filmInfoEventsB (movie : MovieRec) (matchingFilms : List String) : List (String × Option String) :=
  movie.films.filterMap (fun film =>
    match film.filmName, film.filmCommonCode with
    | some n, some c =>
      if !(n = "") && matchingFilms.contains n && !(c = "") then
        some (c, jsOrS film.releaseDate (movieLevelDate movie))
      else none
    | _, _ => none)

/-- All candidate pairs of `extractFilmInfo`, in traversal order. -/
def filmInfoEvents : List MovieRec → List String → List (String × Option String)
  | [], _ => []
  | movie :: rest, matchingFilms =>
    filmInfoEventsA movie matchingFilms ++ filmInfoEventsB movie matchingFilms ++
      filmInfoEvents rest matchingFilms

/-- First-match lookup in an insertion-ordered association list (JS
`Map.prototype.get`, with `none` for `has = false`). -/
def lkAssoc : List (String × Option String) → String → Option (Option String)
  | [], _ => none
  | p :: t, c => if p.1 = c then some p.2 else lkAssoc t c

/-- The conditional `Map` update of `extractFilmInfo`:
`if (!map.has(code) || !map.get(code)) map.set(code, date)` — insert when
absent, overwrite only a falsy (null or empty) stored date. -/
def updFilmInfo (m : List (String × Option String)) (e : String × Option String) : List (String × Option String) :=
  match lkAssoc m e.1 with
  | none => m ++ [e]
  | some stored =>
    if stored = none ∨ stored = some "" then
      m.map (fun p => if p.1 = e.1 then (p.1, e.2) else p)
    else m

/-- Source `extractFilmInfo(movies, matchingFilms)`: one entry per film
identifier, as `(code, releaseDate)` pairs in insertion order. -/
def extractFilmInfo (movies : List MovieRec) (matchingFilms : List String) : List (String × Option String) :=
  movies.foldl (fun m movie =>
    (filmInfoEventsA movie matchingFilms ++ filmInfoEventsB movie matchingFilms).foldl updFilmInfo m) []

/-! ## Theatres and the cinema matcher (source: `getTheaterNames` /
`checkCinemaKeywords`) -/

/-- A theatre record as extracted by `getTheaterNames`. -/
structure Theater where
  name : String
  theatreId : Option String
  showCount : Nat
  cityName : Option String
  address1 : Option String
  deriving Repr, DecidableEq

/-- One matched cinema keyword set of `checkCinemaKeywords`. -/
structure CinemaMatchedSet where
  keywordSet : List String
  setIndex : Nat
  deriving Repr, DecidableEq

/-- The result record of `checkCinemaKeywords`. -/
structure CinemaMatchResult where
  matched : Bool
  matchingTheaters : List Theater
  matchedSets : List CinemaMatchedSet
  deriving Repr, DecidableEq

/-- Source `checkCinemaKeywords(theaterNames)`, with the
`config.cinemaKeywords` global as an explicit argument: with no (or an
empty) configuration every theatre matches; otherwise each theatre is
tested against each keyword set with `allKeywordsFound`, collecting
matched sets (unique by index) and matching theatres (unique by name).
The inner `forEach` over the indexed keyword sets is `cinemaInnerStep`,
the outer `forEach` over the theatres is `cinemaOuterStep`. -/
def cinemaInnerStep (theater : Theater) (acc2 : List CinemaMatchedSet × List Theater)
    (p : Nat × List String) : List CinemaMatchedSet × List Theater :=
  if allKeywordsFound p.2 theater.name then
    (if acc2.1.any (fun m => m.setIndex == p.1) then acc2.1
     else acc2.1 ++ [{ keywordSet := p.2, setIndex := p.1 }],
     if acc2.2.any (fun t => t.name == theater.name) then acc2.2
     else acc2.2 ++ [theater])
  else acc2

/-- The body of the outer `theaterNames.forEach` of `checkCinemaKeywords`:
test one theatre against every indexed keyword set. -/
def cinemaOuterStep (kwss : List (List String)) (acc : List CinemaMatchedSet × List Theater)
    (theater : Theater) : List CinemaMatchedSet × List Theater :=
  kwss.enum.foldl (cinemaInnerStep theater) acc

/-- Source `checkCinemaKeywords(theaterNames)` proper. -/
def checkCinemaKeywords (cinemaKeywords : Option (List (List String))) (theaterNames : List Theater) : CinemaMatchResult :=
  match cinemaKeywords with
  | none => { matched := true, matchingTheaters := theaterNames, matchedSets := [] }
  | some kwss =>
    if kwss.isEmpty then { matched := true, matchingTheaters := theaterNames, matchedSets := [] }
    else
      let r := theaterNames.foldl (cinemaOuterStep kwss)
        (([] : List CinemaMatchedSet), ([] : List Theater))
      { matched := !r.1.isEmpty, matchingTheaters := r.2, matchedSets := r.1 }

/-- JS `Map.prototype.set` on a theatre-by-name map: overwrite in place
when the key exists, append otherwise. -/
def jsMapSetT (m : List (String × Theater)) (k : String) (v : Theater) : List (String × Theater) :=
  if m.any (fun p => p.1 == k) then m.map (fun p => if p.1 = k then (p.1, v) else p)
  else m ++ [(k, v)]

/-- The theatre deduplication of the monitor cycle:
`Array.from(new Map(all.map(t => [t.name, t])).values())` — unique by
name, first-occurrence position, last occurrence's record wins. -/
def dedupByNameLast (theaters : List Theater) : List Theater :=
  (theaters.foldl (fun m t => jsMapSetT m t.name t) []).map Prod.snd

/-! ## Phone-call escalation and its dedup set (source: `makePhoneCall`) -/

/-- The Twilio-related configuration consumed by `makePhoneCall`. -/
structure TwilioCfg where
  enablePhoneCall : Bool
  twilioAccountSid : Option String
  twilioAuthToken : Option String
  twilioPhoneNumber : Option String
  phoneNumberToCall : Option String
  deriving Repr, DecidableEq

/-- Source `makePhoneCall(matchKey)`, with the `phoneCallMade` set and
the outcome of the Twilio call creation (`callOk`; `false` models the
call throwing) as explicit state: returns the function's boolean result
and the new `phoneCallMade` set. -/
def makePhoneCall (cfg : TwilioCfg) (phoneCallMade : List String) (matchKey : Option String) (callOk : Bool) : Bool × List String :=
  if !cfg.enablePhoneCall then (false, phoneCallMade)
  else if !(jsTruthyS cfg.twilioAccountSid && jsTruthyS cfg.twilioAuthToken &&
            jsTruthyS cfg.twilioPhoneNumber && jsTruthyS cfg.phoneNumberToCall) then
    (false, phoneCallMade)
  else if (match matchKey with
           | some k => jsTruthyS (some k) && phoneCallMade.contains k
           | none => false) then
    (false, phoneCallMade)
  else if callOk then
    (true, match matchKey with
           | some k => if jsTruthyS (some k) then addUnique phoneCallMade k else phoneCallMade
           | none => phoneCallMade)
  else (false, phoneCallMade)

/-- A sequence of `makePhoneCall` invocations (one per notifying cycle),
each with its match key and call-creation outcome, threading the
`phoneCallMade` set: returns the results and the final set. -/
def runCalls (cfg : TwilioCfg) : List (Option String × Bool) → List String → List Bool × List String
  | [], seen => ([], seen)
  | c :: rest, seen =>
    let r := makePhoneCall cfg seen c.1 c.2
    let rr := runCalls cfg rest r.2
    (r.1 :: rr.1, rr.2)

/-! ## Monitor cycle (source: `monitor`, with `checkCondition` /
`getMatchingKeywordSets`) -/

/-- The `config.movieKeywords && Array.isArray(...) && length > 0`
configuration test (likewise for cinema keywords). -/
def kwConfigured : Option (List (List String)) → Bool
  | some l => !l.isEmpty
  | none => false

/-- The configuration fields the monitor cycle consults. -/
structure MonitorCfg where
  movieKeywords : Option (List (List String))
  cinemaKeywords : Option (List (List String))
  targetMovie : Option String
  checkCondition : Option String
  twilio : TwilioCfg

/-- The result of `pingAPI()`: success flag and (on success) the
response body. -/
structure PingResult where
  success : Bool
  data : ResponseData

/-- The `hasFilm` helper of the evaluation context: some film name
contains the search string, case insensitively. -/
def hasFilm (filmNames : List String) (search : String) : Bool :=
  filmNames.any (fun name => jsIncludes (strToLower name) (strToLower search))

/-- Source `checkCondition(responseData)`. The user-supplied expression
path (`new Function`) is an oracle `exprEval : Bool` (a throwing or
false expression yields `false`); the keyword-set path, the legacy
`hasFilm(targetMovie)` default and the `movies.length > 0` default are
evaluated concretely. -/
def checkConditionF (cfg : MonitorCfg) (responseData : ResponseData) (exprEval : Bool) : Bool :=
  let movies := getMovies responseData
  let filmNames := getAllFilmNames movies
  match cfg.checkCondition with
  | some _ => exprEval
  | none =>
    if kwConfigured cfg.movieKeywords then
      !(checkKeywordSets (cfg.movieKeywords.getD []) filmNames).isEmpty
    else match cfg.targetMovie with
      | some t => if t ≠ "" then hasFilm filmNames t else !movies.isEmpty
      | none => !movies.isEmpty

/-- Source `getMatchingKeywordSets(responseData)`. -/
def getMatchingKeywordSets (cfg : MonitorCfg) (responseData : ResponseData) : List FilmMatch :=
  if kwConfigured cfg.movieKeywords then
    checkKeywordSets (cfg.movieKeywords.getD []) (getAllFilmNames (getMovies responseData))
  else []

/-- The legacy target-movie test of the monitor cycle
(`config.targetMovie && filmNames.some(name => ...includes(...))`). -/
def targetMovieFoundF (cfg : MonitorCfg) (filmNames : List String) : Bool :=
  match cfg.targetMovie with
  | some t => !(t = "") && hasFilm filmNames t
  | none => false

/-- The cinema-keyword stage of the monitor cycle (source lines
637-656): returns `(shouldNotify, cinemaMatchResult)`; with no cinema
keywords configured the result is overwritten with the all-theatres
record. -/
def cinemaStage (cinemaKeywords : Option (List (List String))) (uniqueTheaters : List Theater) : Bool × CinemaMatchResult :=
  let cmr := checkCinemaKeywords cinemaKeywords uniqueTheaters
  if kwConfigured cinemaKeywords then (cmr.matched, cmr)
  else (true, { matched := true, matchingTheaters := uniqueTheaters, matchedSets := [] })

/-- The match-key construction of the monitor cycle (source lines
721-732): sorted, comma-joined film codes, a `|` separator, and the
sorted, comma-joined matching theatre names (`"all"` when the
matching-theatre list is absent or empty); the legacy path uses
`"legacy|" ++ targetMovie`. -/
def monitorMatchKey (keywordMatches : List FilmMatch) (filmCommonCodes : List String)
    (cinemaMatchResult : Option CinemaMatchResult) (targetMovieFound : Bool)
    (targetMovie : Option String) : Option String :=
  if 0 < keywordMatches.length ∧ 0 < filmCommonCodes.length then
    let theaterNames := match cinemaMatchResult with
      | some r =>
        if 0 < r.matchingTheaters.length then
          commaJoin (sortStr (r.matchingTheaters.map Theater.name))
        else "all"
      | none => "all"
    some (commaJoin (sortStr filmCommonCodes) ++ "|" ++ theaterNames)
  else if targetMovieFound then some ("legacy|" ++ targetMovie.getD "")
  else none

/-- The observable outcome of one monitor cycle: how many error
notifications and match notifications were sent, which film codes had a
secondary theatre-listing lookup issued, the computed match key, whether
`makePhoneCall` was reached and whether it made a call, and the
`phoneCallMade` set afterwards. -/
structure MonitorOutcome where
  errorNotifications : Nat
  notifications : Nat
  theatreFetches : List String
  matchKey : Option String
  phoneCallInvoked : Bool
  callMade : Bool
  seenAfter : List String
  deriving Repr, DecidableEq

/-- Source `monitor()`: one poll cycle. External collaborators are
explicit: `ping` is the primary fetch result, `theatreFetch code date`
the secondary lookup (`none` a transport failure, `some ts` success with
the theatres `getTheaterNames` extracts), `exprEval` the user-expression
oracle and `callOk` the Twilio call outcome; `seen` is the
`phoneCallMade` set at cycle start. -/
def monitor (cfg : MonitorCfg) (ping : PingResult)
    (theatreFetch : String → Option String → Option (List Theater))
    (exprEval : Bool) (callOk : Bool) (seen : List String) : MonitorOutcome :=
  if !ping.success then
    { errorNotifications := 1, notifications := 0, theatreFetches := [], matchKey := none,
      phoneCallInvoked := false, callMade := false, seenAfter := seen }
  else
    let conditionMet := checkConditionF cfg ping.data exprEval
    if !conditionMet then
      { errorNotifications := 0, notifications := 0, theatreFetches := [], matchKey := none,
        phoneCallInvoked := false, callMade := false, seenAfter := seen }
    else
      let movies := getMovies ping.data
      let filmNames := getAllFilmNames movies
      let keywordMatches := getMatchingKeywordSets cfg ping.data
      let targetMovieFound := targetMovieFoundF cfg filmNames
      if !keywordMatches.isEmpty then
        let allMatchingFilms := keywordMatches.foldl (fun a m => a ++ m.matchingFilms) []
        let filmInfo := extractFilmInfo movies allMatchingFilms
        let filmCommonCodes := filmInfo.map Prod.fst
        let allTheaterNames := filmInfo.foldl (fun acc fi =>
          match theatreFetch fi.1 fi.2 with
          | some theaters => acc ++ theaters
          | none => acc) []
        let uniqueTheaters := dedupByNameLast allTheaterNames
        let stage := cinemaStage cfg.cinemaKeywords uniqueTheaters
        if stage.1 then
          let matchKey := monitorMatchKey keywordMatches filmCommonCodes (some stage.2)
            targetMovieFound cfg.targetMovie
          let call := makePhoneCall cfg.twilio seen matchKey callOk
          { errorNotifications := 0, notifications := 1, theatreFetches := filmCommonCodes,
            matchKey := matchKey, phoneCallInvoked := true, callMade := call.1,
            seenAfter := call.2 }
        else
          { errorNotifications := 0, notifications := 0, theatreFetches := filmCommonCodes,
            matchKey := none, phoneCallInvoked := false, callMade := false, seenAfter := seen }
      else if targetMovieFound then
        let matchKey := monitorMatchKey [] [] none targetMovieFound cfg.targetMovie
        let call := makePhoneCall cfg.twilio seen matchKey callOk
        { errorNotifications := 0, notifications := 1, theatreFetches := [],
          matchKey := matchKey, phoneCallInvoked := true, callMade := call.1,
          seenAfter := call.2 }
      else
        let call := makePhoneCall cfg.twilio seen none callOk
        { errorNotifications := 0, notifications := 1, theatreFetches := [],
          matchKey := none, phoneCallInvoked := true, callMade := call.1,
          seenAfter := call.2 }

/-! ## Concrete fixtures used by witnesses and counterexamples -/

/-- A Twilio configuration with phone calls enabled and all credentials
present. -/
def twilioDemo : TwilioCfg :=
  { enablePhoneCall := true, twilioAccountSid := some "AC1", twilioAuthToken := some "tk",
    twilioPhoneNumber := some "+1000", phoneNumberToCall := some "+1999" }

/-- A monitor configuration with one film keyword set and no cinema
keywords. -/
def demoCfg : MonitorCfg :=
  { movieKeywords := some [["spider"]], cinemaKeywords := none, targetMovie := none,
    checkCondition := none, twilio := twilioDemo }

/-- A concrete theatre record. -/
def pvrTheater : Theater :=
  { name := "PVR Phoenix", theatreId := none, showCount := 2, cityName := some "Bengaluru",
    address1 := none }

/-- A concrete movie record with one sub-film carrying a film code. -/
def spiderMovie : MovieRec :=
  { filmName := some "Spider-Man", releaseDate := none, year := none, month := none, day := none,
    films := [{ filmName := some "Spider-Man", filmCommonCode := some "C1", releaseDate := none }] }

/-- A concrete IMAX theatre record. -/
def imaxTheater : Theater :=
  { name := "City Mall - IMAX", theatreId := none, showCount := 1, cityName := none,
    address1 := none }

/-- Two movie records for the same film code: the first resolves no
date, the second carries one. -/
def twoOccurrenceMovies : List MovieRec :=
  [{ filmName := some "A", releaseDate := none, year := none, month := none, day := none,
     films := [{ filmName := some "A", filmCommonCode := some "C1", releaseDate := none }] },
   { filmName := some "A", releaseDate := some "2025-11-14", year := none, month := none, day := none,
     films := [{ filmName := some "A", filmCommonCode := some "C1", releaseDate := none }] }]

/-- The first non-null (`isSome`) element of a list of optional dates,
or `none` when there is none: the value the film-info map retains per
code. -/
def firstSome : List (Option String) → Option String
  | [] => none
  | v :: t => if v.isSome then v else firstSome t

/-- The candidate dates recorded for one film code, in traversal
order. -/
def valuesAt (c : String) (evs : List (String × Option String)) : List (Option String) :=
  evs.filterMap (fun e => if e.1 = c then some e.2 else none)

/-! ## C10: a failed call leaves the dedup state untouched -/

/-- C10: if the voice-call creation throws (`callOk = false`),
`makePhoneCall` returns `false` and leaves the `phoneCallMade` set
unchanged — the key is recorded only after a successful call, so the
same key can trigger another escalation attempt on a later cycle. -/
theorem makePhoneCall_failure_leaves_dedup_unchanged (cfg : TwilioCfg)
    (phoneCallMade : List String) (matchKey : Option String) :
    makePhoneCall cfg phoneCallMade matchKey false = (false, phoneCallMade) := by
  unfold makePhoneCall
  split
  · rfl
  · split
    · rfl
    · split
      · rfl
      · rfl

/-! ## C9: primary fetch failure short-circuits the cycle -/

/-- C9: a cycle whose primary fetch fails sends exactly one error
notification and terminates: no secondary theatre lookup is issued, no
match key is computed, `makePhoneCall` is not reached, and the dedup
seen-set is unchanged. -/
theorem monitor_primary_failure_short_circuits (cfg : MonitorCfg) (ping : PingResult)
    (theatreFetch : String → Option String → Option (List Theater))
    (exprEval callOk : Bool) (seen : List String) (h : ping.success = false) :
    monitor cfg ping theatreFetch exprEval callOk seen =
      { errorNotifications := 1, notifications := 0, theatreFetches := [], matchKey := none,
        phoneCallInvoked := false, callMade := false, seenAfter := seen } := by
  unfold monitor
  rw [h]
  rfl

/-- Witness for C9 at a concrete failed fetch. -/
theorem monitor_primary_failure_witness :
    monitor demoCfg { success := false, data := none } (fun _ _ => none) false false ["k0"] =
      { errorNotifications := 1, notifications := 0, theatreFetches := [], matchKey := none,
        phoneCallInvoked := false, callMade := false, seenAfter := ["k0"] } :=
  monitor_primary_failure_short_circuits demoCfg _ _ _ _ _ rfl

/-! ## C6: canonical dates pass through the normalizer unchanged -/

/-- C6: date normalization is idempotent — an already-canonical
`YYYY-MM-DD` string is returned unchanged, so normalizing twice equals
normalizing once. -/
theorem convert_canonical_idempotent (jsParse : String → Option JsDate) (s : String)
    (h : isCanonicalDate s = true) :
    convertReleaseDateToAPIFormat jsParse s = some s ∧
    (convertReleaseDateToAPIFormat jsParse s).bind (convertReleaseDateToAPIFormat jsParse) =
      convertReleaseDateToAPIFormat jsParse s := by
  have hne : s ≠ "" := by
    intro he
    rw [he] at h
    have hf : isCanonicalDate "" = false := by decide
    rw [hf] at h
    exact Bool.noConfusion h
  have h1 : convertReleaseDateToAPIFormat jsParse s = some s := by
    unfold convertReleaseDateToAPIFormat
    rw [if_neg hne, if_pos h]
  refine ⟨h1, ?_⟩
  rw [h1]
  exact h1

/-- Witness for C6 at a concrete canonical date. -/
theorem convert_canonical_idempotent_witness :
    convertReleaseDateToAPIFormat (fun _ => none) "2025-11-14" = some "2025-11-14" :=
  (convert_canonical_idempotent (fun _ => none) "2025-11-14" (by decide)).1

/-! ## C4: date selection for the theatre-listing lookup -/

/-- C4: the theatre-listing lookup date is the normalized release date
when that date is today or later (by `YYYY-MM-DD` string comparison),
today's date when the normalized release date is strictly in the past,
and today's date, deterministically, when no release date was supplied
(absent or empty) or normalization returned null. -/
theorem computeDated_selection (jsParse : String → Option JsDate)
    (releaseDate : Option String) (today : String) :
    (jsTruthyS releaseDate = false → computeDated jsParse releaseDate today = today) ∧
    (∀ s, releaseDate = some s → s ≠ "" →
      convertReleaseDateToAPIFormat jsParse s = none →
      computeDated jsParse releaseDate today = today) ∧
    (∀ s f, releaseDate = some s → s ≠ "" →
      convertReleaseDateToAPIFormat jsParse s = some f →
      (jsStrLt f today = true → computeDated jsParse releaseDate today = today) ∧
      (jsStrLt f today = false → computeDated jsParse releaseDate today = f)) := by
  refine ⟨?_, ?_, ?_⟩
  · intro h
    cases releaseDate with
    | none => rfl
    | some s =>
      have hs : s = "" := by
        by_contra hne
        simp [jsTruthyS, hne] at h
      subst hs
      rfl
  · intro s hs hne hconv
    subst hs
    simp [computeDated, jsTruthyS, hne, hconv]
  · intro s f hs hne hconv
    subst hs
    constructor
    · intro hlt
      simp [computeDated, jsTruthyS, hne, hconv, hlt]
    · intro hlt
      simp [computeDated, jsTruthyS, hne, hconv, hlt]

/-- Witness for C4 at a concrete future release date. -/
theorem computeDated_selection_witness :
    computeDated (fun _ => none) (some "2099-12-31") "2025-10-11" = "2099-12-31" := by
  have h := (computeDated_selection (fun _ => none) (some "2099-12-31") "2025-10-11").2.2
      "2099-12-31" "2099-12-31" rfl (by decide) (by decide)
  exact h.2 (by decide)

/-! ## C5: the month-table fallback of the normalizer is dead code -/

/-- C5: the specification's step (3) — after generic-parse failure,
convert a recognized `"MonthName Day, Year"` string via the month
table — never runs: `new Date(string)` signals failure by an Invalid
Date, not by throwing, so the source's `catch` block holding the
month-table fallback is unreachable and the normalizer returns null
instead. Here the generic parser fails on `"Novembre 14, 2025"` (a month
name the engine does not recognize); the month table would convert it. -/
theorem convert_monthTable_fallback_dead :
    convertReleaseDateToAPIFormat (fun _ => none) "Novembre 14, 2025" = none ∧
    monthTableStep "Novembre 14, 2025" = some "2025-11-14" :=
  ⟨by decide, by decide⟩

/-! ## C8: keyword-set matching never returns empty match lists -/

/-- C8: every match `checkKeywordSets` returns has a non-empty
`matchingFilms` list, and an empty keyword set matches no name at all. -/
theorem checkKeywordSets_no_empty_match (keywordSets : List (List String))
    (filmNames : List String) :
    (∀ m ∈ checkKeywordSets keywordSets filmNames, m.matchingFilms ≠ []) ∧
    checkKeywordSet [] filmNames = [] := by
  constructor
  · intro m hm
    unfold checkKeywordSets at hm
    rw [List.mem_filterMap] at hm
    obtain ⟨p, _hp, he⟩ := hm
    by_cases hmt : (checkKeywordSet p.2 filmNames).isEmpty
    · simp only [hmt, if_true] at he
      exact Option.noConfusion he
    · simp only [hmt, if_false] at he
      have hrec := Option.some.inj he
      rw [← hrec]
      intro h0
      have h0x : checkKeywordSet p.2 filmNames = [] := h0
      exact hmt (by rw [h0x]; rfl)
  · rfl

/-- Witness for C8 at a concrete keyword set and film list. -/
theorem checkKeywordSets_no_empty_match_witness :
    ({ keywordSet := ["spider"], matchingFilms := ["Spider-Man"], setIndex := 0 } : FilmMatch).matchingFilms ≠ [] :=
  (checkKeywordSets_no_empty_match [["spider"]] ["Spider-Man"]).1 _ (by decide)

/-! ## C2: the shape of the dedup match key -/

/-- C2 (counterexample): in a cycle with a keyword-set film match, one
resolved film identifier and cinema keywords unset, the key's theatre
part is the collected theatre's name (`"C1|PVR Phoenix"`), not the
literal token `all` the claim requires for the unset-cinema-keywords
case. -/
theorem monitorMatchKey_all_counterexample :
    (monitor demoCfg { success := true, data := some [spiderMovie] }
        (fun _ _ => some [pvrTheater]) false true []).matchKey = some "C1|PVR Phoenix" ∧
    ("C1|PVR Phoenix" : String) ≠ "C1|all" :=
  ⟨by decide, by decide⟩

/-- C2 (amended): the match key is the sorted, comma-joined film codes,
`|`, and the sorted, comma-joined matching theatre names, with the
literal token `all` exactly when the matching-theatre list is empty (in
particular, when cinema keywords are unset the cycle's matching-theatre
list is all collected theatres, so `all` appears only when no theatres
were collected); the legacy path yields the sentinel `legacy|` plus the
target name. -/
theorem monitorMatchKey_shape (km : List FilmMatch) (codes : List String)
    (cmr : CinemaMatchResult) (tmf : Bool) (tm : Option String) :
    (km ≠ [] → codes ≠ [] →
      monitorMatchKey km codes (some cmr) tmf tm =
        some (commaJoin (sortStr codes) ++ "|" ++
          (if cmr.matchingTheaters = [] then "all"
           else commaJoin (sortStr (cmr.matchingTheaters.map Theater.name))))) ∧
    (km = [] → tmf = true → ∀ t, tm = some t →
      monitorMatchKey km codes none tmf tm = some ("legacy|" ++ t)) ∧
    (∀ uniqueTheaters : List Theater,
      cinemaStage none uniqueTheaters =
        (true, { matched := true, matchingTheaters := uniqueTheaters, matchedSets := [] })) := by
  refine ⟨?_, ?_, ?_⟩
  · intro hkm hcodes
    have h1 : 0 < km.length := List.length_pos.mpr hkm
    have h2 : 0 < codes.length := List.length_pos.mpr hcodes
    unfold monitorMatchKey
    rw [if_pos ⟨h1, h2⟩]
    by_cases hmt : cmr.matchingTheaters = []
    · simp [hmt]
    · have h3 : 0 < cmr.matchingTheaters.length := List.length_pos.mpr hmt
      simp [hmt, h3]
  · intro hkm htmf t ht
    subst hkm
    subst ht
    subst htmf
    unfold monitorMatchKey
    simp
  · intro uniqueTheaters
    rfl

/-- Witness for the amended C2 at concrete codes and theatres. -/
theorem monitorMatchKey_shape_witness :
    monitorMatchKey [{ keywordSet := ["spider"], matchingFilms := ["Spider-Man"], setIndex := 0 }]
        ["C2", "C1"]
        (some { matched := true, matchingTheaters := [pvrTheater], matchedSets := [] })
        false none = some "C1,C2|PVR Phoenix" := by
  have h := (monitorMatchKey_shape
      [{ keywordSet := ["spider"], matchingFilms := ["Spider-Man"], setIndex := 0 }]
      ["C2", "C1"]
      { matched := true, matchingTheaters := [pvrTheater], matchedSets := [] }
      false none).1 (by decide) (by decide)
  exact h.trans (by decide)

/-! ## C1: the escalation check fires exactly once per key -/

/-- `runCalls` distributes over list append. -/
theorem runCalls_append (cfg : TwilioCfg) (xs ys : List (Option String × Bool)) (s : List String) :
    runCalls cfg (xs ++ ys) s =
      ((runCalls cfg xs s).1 ++ (runCalls cfg ys (runCalls cfg xs s).2).1,
       (runCalls cfg ys (runCalls cfg xs s).2).2) := by
  induction xs generalizing s with
  | nil => simp [runCalls]
  | cons c rest ih => simp [runCalls, ih]

/-- `runCalls` produces one result per invocation. -/
theorem runCalls_fst_length (cfg : TwilioCfg) (xs : List (Option String × Bool)) (s : List String) :
    (runCalls cfg xs s).1.length = xs.length := by
  induction xs generalizing s with
  | nil => rfl
  | cons c rest ih => simp [runCalls, ih]

/-- With calls enabled, credentials present and a successful call
creation, `makePhoneCall` on a non-empty key returns `true` iff the key
was not yet in the seen-set. -/
theorem makePhoneCall_step_result (cfg : TwilioCfg)
    (hen : cfg.enablePhoneCall = true)
    (hcred : (jsTruthyS cfg.twilioAccountSid && jsTruthyS cfg.twilioAuthToken &&
              jsTruthyS cfg.twilioPhoneNumber && jsTruthyS cfg.phoneNumberToCall) = true)
    (s : List String) (k : String) (hk : k ≠ "") :
    (makePhoneCall cfg s (some k) true).1 = !s.contains k := by
  unfold makePhoneCall
  rw [hen, hcred]
  have htr : jsTruthyS (some k) = true := by simp [jsTruthyS, hk]
  by_cases hm : k ∈ s
  · simp [htr, hm]
  · simp [htr, hm]

/-- Membership in the seen-set after one successful, fully configured
`makePhoneCall` step. -/
theorem makePhoneCall_step_mem (cfg : TwilioCfg)
    (hen : cfg.enablePhoneCall = true)
    (hcred : (jsTruthyS cfg.twilioAccountSid && jsTruthyS cfg.twilioAuthToken &&
              jsTruthyS cfg.twilioPhoneNumber && jsTruthyS cfg.phoneNumberToCall) = true)
    (s : List String) (key : Option String) (k : String) (hk : k ≠ "") :
    (k ∈ (makePhoneCall cfg s key true).2 ↔ k ∈ s ∨ key = some k) := by
  cases key with
  | none =>
    have h2 : (makePhoneCall cfg s none true).2 = s := by
      unfold makePhoneCall
      rw [hen, hcred]
      simp
    rw [h2]
    simp
  | some k2 =>
    by_cases hk2 : k2 = ""
    · subst hk2
      have h2 : (makePhoneCall cfg s (some "") true).2 = s := by
        unfold makePhoneCall
        rw [hen, hcred]
        have hft : jsTruthyS (some "") = false := rfl
        simp [hft]
      rw [h2]
      constructor
      · exact Or.inl
      · rintro (h | h)
        · exact h
        · exact absurd (Option.some.inj h).symm hk
    · have htr : jsTruthyS (some k2) = true := by simp [jsTruthyS, hk2]
      by_cases hm : k2 ∈ s
      · have h2 : (makePhoneCall cfg s (some k2) true).2 = s := by
          unfold makePhoneCall
          rw [hen, hcred]
          simp [htr, hm]
        rw [h2]
        constructor
        · exact Or.inl
        · rintro (h | h)
          · exact h
          · rw [← Option.some.inj h]
            exact hm
      · have h2 : (makePhoneCall cfg s (some k2) true).2 = s ++ [k2] := by
          unfold makePhoneCall
          rw [hen, hcred]
          simp [htr, hm, addUnique]
        rw [h2]
        rw [List.mem_append]
        constructor
        · rintro (h | h)
          · exact Or.inl h
          · have hx := List.mem_singleton.mp h
            exact Or.inr (by rw [hx])
        · rintro (h | h)
          · exact Or.inl h
          · have hx := Option.some.inj h
            exact Or.inr (by rw [← hx]; exact List.mem_singleton.mpr rfl)

/-- Membership in the seen-set after a run of successful, fully
configured calls: a non-empty key is present iff it was present before
or appears among the invocation keys. -/
theorem runCalls_mem_seen (cfg : TwilioCfg)
    (hen : cfg.enablePhoneCall = true)
    (hcred : (jsTruthyS cfg.twilioAccountSid && jsTruthyS cfg.twilioAuthToken &&
              jsTruthyS cfg.twilioPhoneNumber && jsTruthyS cfg.phoneNumberToCall) = true)
    (k : String) (hk : k ≠ "") :
    ∀ (xs : List (Option String × Bool)) (s : List String), (∀ c ∈ xs, c.2 = true) →
      (k ∈ (runCalls cfg xs s).2 ↔ k ∈ s ∨ (some k) ∈ xs.map Prod.fst) := by
  intro xs
  induction xs with
  | nil => intro s _; simp [runCalls]
  | cons c rest ih =>
    intro s hok
    have hc2 : c.2 = true := hok c (by simp)
    obtain ⟨key, ok⟩ := c
    have hok2 : ok = true := hc2
    subst hok2
    simp only [runCalls]
    rw [ih (makePhoneCall cfg s key true).2 (fun d hd => hok d (by simp [hd]))]
    rw [makePhoneCall_step_mem cfg hen hcred s key k hk]
    simp only [List.map_cons, List.mem_cons]
    constructor
    · rintro ((h | h) | h)
      · exact Or.inl h
      · exact Or.inr (Or.inl h.symm)
      · exact Or.inr (Or.inr h)
    · rintro (h | h | h)
      · exact Or.inl (Or.inl h)
      · exact Or.inl (Or.inr h.symm)
      · exact Or.inr h

/-- C1: with phone calls enabled, credentials configured and every call
creation succeeding, a sequence of `makePhoneCall` invocations starting
from the empty seen-set returns `true` for key `k` exactly at `k`'s
first occurrence — the invocation at position `pre.length` returns
`true` iff `k` did not occur among the earlier keys — and `k` is
recorded in the seen-set from that observation on. -/
theorem makePhoneCall_exactly_once (cfg : TwilioCfg)
    (hen : cfg.enablePhoneCall = true)
    (hcred : (jsTruthyS cfg.twilioAccountSid && jsTruthyS cfg.twilioAuthToken &&
              jsTruthyS cfg.twilioPhoneNumber && jsTruthyS cfg.phoneNumberToCall) = true)
    (pre post : List (Option String × Bool)) (k : String) (hk : k ≠ "")
    (hok : ∀ c ∈ pre ++ (some k, true) :: post, c.2 = true) :
    (runCalls cfg (pre ++ (some k, true) :: post) []).1[pre.length]? =
      some (!(pre.map Prod.fst).contains (some k)) ∧
    k ∈ (runCalls cfg (pre ++ (some k, true) :: post) []).2 := by
  have hpre : ∀ c ∈ pre, c.2 = true := fun c hc => hok c (by simp [hc])
  have hpost : ∀ c ∈ (some k, true) :: post, c.2 = true := fun c hc =>
    hok c (by rw [List.mem_append]; exact Or.inr hc)
  rw [runCalls_append]
  dsimp only
  have hlen : (runCalls cfg pre []).1.length = pre.length := runCalls_fst_length cfg pre []
  have hmemA : k ∈ (runCalls cfg pre []).2 ↔ (some k) ∈ pre.map Prod.fst := by
    rw [runCalls_mem_seen cfg hen hcred k hk pre [] hpre]
    simp
  constructor
  · rw [List.getElem?_append_right (le_of_eq hlen)]
    rw [hlen, Nat.sub_self]
    simp only [runCalls]
    rw [List.getElem?_cons_zero]
    rw [makePhoneCall_step_result cfg hen hcred _ k hk]
    have hcont : (runCalls cfg pre []).2.contains k = (pre.map Prod.fst).contains (some k) := by
      rw [Bool.eq_iff_iff]
      rw [List.elem_iff, List.elem_iff]
      exact hmemA
    rw [hcont]
  · rw [runCalls_mem_seen cfg hen hcred k hk ((some k, true) :: post) _ hpost]
    exact Or.inr (by simp)

/-- Witness for C1: two successive calls with the same key from the
empty seen-set; the second returns `false` and the key is recorded. -/
theorem makePhoneCall_exactly_once_witness :
    (runCalls twilioDemo [(some "K", true), (some "K", true)] []).1[1]? = some false ∧
    "K" ∈ (runCalls twilioDemo [(some "K", true), (some "K", true)] []).2 := by
  have h := makePhoneCall_exactly_once twilioDemo rfl rfl [(some "K", true)] [] "K"
    (by decide) (by decide)
  constructor
  · exact h.1.trans (by decide)
  · exact h.2

/-! ## C3: cinema matcher vs. the film keyword matcher -/

/-- Second components of the inner cinema fold: the theatre is appended
exactly when some keyword set matches it and no theatre of the same name
is present yet. -/
theorem cinemaInner_snd (th : Theater) (pairs : List (Nat × List String)) :
    ∀ acc : List CinemaMatchedSet × List Theater,
      (pairs.foldl (cinemaInnerStep th) acc).2 =
        if (pairs.any (fun p => allKeywordsFound p.2 th.name)) &&
           !(acc.2.any (fun t => t.name == th.name)) then acc.2 ++ [th] else acc.2 := by
  induction pairs with
  | nil => intro acc; simp
  | cons p rest ih =>
    intro acc
    by_cases hm : allKeywordsFound p.2 th.name
    · by_cases ha : acc.2.any (fun t => t.name == th.name)
      · have hstep : (cinemaInnerStep th acc p).2 = acc.2 := by
          simp [cinemaInnerStep, hm, ha]
        rw [List.foldl_cons, ih, hstep]
        simp [ha]
      · have hstep : (cinemaInnerStep th acc p).2 = acc.2 ++ [th] := by
          simp [cinemaInnerStep, hm, ha]
        have hany : ((acc.2 ++ [th]).any (fun t => t.name == th.name)) = true := by
          simp
        rw [List.foldl_cons, ih, hstep, hany]
        simp [hm, ha]
    · have hstep : cinemaInnerStep th acc p = acc := by
        simp [cinemaInnerStep, hm]
      have hf : allKeywordsFound p.2 th.name = false := Bool.eq_false_iff.mpr hm
      rw [List.foldl_cons, hstep, ih, List.any_cons, hf, Bool.false_or]

/-- The inner cinema fold never empties a non-empty matched-sets list. -/
theorem cinemaInner_fst_ne (th : Theater) (pairs : List (Nat × List String)) :
    ∀ acc : List CinemaMatchedSet × List Theater,
      acc.1 ≠ [] → (pairs.foldl (cinemaInnerStep th) acc).1 ≠ [] := by
  induction pairs with
  | nil => intro acc h; simpa
  | cons p rest ih =>
    intro acc h
    rw [List.foldl_cons]
    apply ih
    unfold cinemaInnerStep
    by_cases hm : allKeywordsFound p.2 th.name
    · simp only [hm, if_true]
      by_cases hi : acc.1.any (fun m => m.setIndex == p.1)
      · simpa [hi]
      · simp [hi]
    · simpa [hm]

/-- First component of the inner cinema fold: empty iff it started empty
and no keyword set matches the theatre. -/
theorem cinemaInner_fst_empty (th : Theater) (pairs : List (Nat × List String)) :
    ∀ acc : List CinemaMatchedSet × List Theater,
      ((pairs.foldl (cinemaInnerStep th) acc).1 = [] ↔
        acc.1 = [] ∧ ∀ p ∈ pairs, allKeywordsFound p.2 th.name = false) := by
  induction pairs with
  | nil => intro acc; simp
  | cons p rest ih =>
    intro acc
    by_cases hm : allKeywordsFound p.2 th.name
    · have hne : (cinemaInnerStep th acc p).1 ≠ [] := by
        unfold cinemaInnerStep
        simp only [hm, if_true]
        by_cases hi : acc.1.any (fun m => m.setIndex == p.1)
        · simp only [hi, if_true]
          intro hnil
          rw [hnil] at hi
          simp at hi
        · simp [hi]
      rw [List.foldl_cons]
      constructor
      · intro h
        exact absurd h (cinemaInner_fst_ne th rest _ hne)
      · rintro ⟨_h1, h2⟩
        have hfp := h2 p (by simp)
        rw [hfp] at hm
        exact Bool.noConfusion hm
    · have hstep : cinemaInnerStep th acc p = acc := by
        simp [cinemaInnerStep, hm]
      rw [List.foldl_cons, hstep, ih]
      constructor
      · rintro ⟨h1, h2⟩
        refine ⟨h1, fun q hq => ?_⟩
        rcases List.mem_cons.mp hq with h | h
        · rw [h]
          exact Bool.eq_false_iff.mpr hm
        · exact h2 q h
      · rintro ⟨h1, h2⟩
        exact ⟨h1, fun q hq => h2 q (by simp [hq])⟩

/-- Name-membership in the matching theatres of the outer cinema fold. -/
theorem cinemaOuter_names (kwss : List (List String)) (theaters : List Theater) :
    ∀ (acc : List CinemaMatchedSet × List Theater) (n : String),
      (n ∈ ((theaters.foldl (cinemaOuterStep kwss) acc).2.map Theater.name) ↔
        n ∈ acc.2.map Theater.name ∨
          ∃ t ∈ theaters, t.name = n ∧ ∃ p ∈ kwss.enum, allKeywordsFound p.2 t.name = true) := by
  induction theaters with
  | nil => intro acc n; simp
  | cons th rest ih =>
    intro acc n
    rw [List.foldl_cons, ih]
    have hchar : n ∈ (cinemaOuterStep kwss acc th).2.map Theater.name ↔
        n ∈ acc.2.map Theater.name ∨
          (n = th.name ∧ ∃ p ∈ kwss.enum, allKeywordsFound p.2 th.name = true) := by
      unfold cinemaOuterStep
      rw [cinemaInner_snd]
      by_cases hmt : kwss.enum.any (fun p => allKeywordsFound p.2 th.name)
      · by_cases ha : acc.2.any (fun t => t.name == th.name)
        · simp only [hmt, ha, Bool.not_true, Bool.and_false, if_false]
          have hth : th.name ∈ acc.2.map Theater.name := by
            rw [List.any_eq_true] at ha
            obtain ⟨t, ht, he⟩ := ha
            rw [List.mem_map]
            exact ⟨t, ht, by simpa using he⟩
          constructor
          · exact Or.inl
          · rintro (h | ⟨h1, _h2⟩)
            · exact h
            · rw [h1]
              exact hth
        · simp only [hmt, ha, Bool.not_false, Bool.and_true, if_true]
          rw [List.map_append, List.mem_append]
          have hex : ∃ p ∈ kwss.enum, allKeywordsFound p.2 th.name = true :=
            List.any_eq_true.mp hmt
          simp [hex]
      · have hf : (kwss.enum.any fun p => allKeywordsFound p.2 th.name) = false :=
          Bool.eq_false_iff.mpr hmt
        rw [hf]
        have hno : ¬ ∃ p ∈ kwss.enum, allKeywordsFound p.2 th.name = true := by
          rw [← List.any_eq_true]
          exact hmt
        simp only [Bool.false_and, Bool.false_eq_true, if_false]
        constructor
        · exact Or.inl
        · rintro (h | ⟨_h1, h2⟩)
          · exact h
          · exact absurd h2 hno
    rw [hchar]
    constructor
    · rintro ((h | ⟨h1, h2⟩) | ⟨t, ht, hr⟩)
      · exact Or.inl h
      · exact Or.inr ⟨th, by simp, h1.symm, h2⟩
      · exact Or.inr ⟨t, by simp [ht], hr⟩
    · rintro (h | ⟨t, ht, hr⟩)
      · exact Or.inl (Or.inl h)
      · rcases List.mem_cons.mp ht with h | h
        · rw [← h]
          exact Or.inl (Or.inr ⟨hr.1.symm, hr.2⟩)
        · exact Or.inr ⟨t, h, hr⟩

/-- Emptiness of the matched-sets list of the outer cinema fold. -/
theorem cinemaOuter_fst_empty (kwss : List (List String)) (theaters : List Theater) :
    ∀ acc : List CinemaMatchedSet × List Theater,
      ((theaters.foldl (cinemaOuterStep kwss) acc).1 = [] ↔
        acc.1 = [] ∧ ∀ t ∈ theaters, ∀ p ∈ kwss.enum, allKeywordsFound p.2 t.name = false) := by
  induction theaters with
  | nil => intro acc; simp
  | cons th rest ih =>
    intro acc
    rw [List.foldl_cons, ih]
    unfold cinemaOuterStep
    rw [cinemaInner_fst_empty]
    constructor
    · rintro ⟨⟨h1, h2⟩, h3⟩
      refine ⟨h1, fun t ht => ?_⟩
      rcases List.mem_cons.mp ht with h | h
      · rw [h]
        exact h2
      · exact h3 t h
    · rintro ⟨h1, h2⟩
      exact ⟨⟨h1, h2 th (by simp)⟩, fun t ht => h2 t (by simp [ht])⟩

/-- Existentials over an enumerated list project to the list itself. -/
theorem exists_enum_snd (P : List String → Prop) (l : List (List String)) :
    (∃ p ∈ l.enum, P p.2) ↔ ∃ ks ∈ l, P ks := by
  constructor
  · rintro ⟨p, hp, hP⟩
    refine ⟨p.2, ?_, hP⟩
    rw [← List.enum_map_snd l]
    exact List.mem_map.mpr ⟨p, hp, rfl⟩
  · rintro ⟨ks, hks, hP⟩
    rw [← List.enum_map_snd l] at hks
    obtain ⟨p, hp, he⟩ := List.mem_map.mp hks
    exact ⟨p, hp, by rw [he]; exact hP⟩

/-- For a non-empty keyword set, membership of a name in
`checkKeywordSet` applied to that single name is the `allKeywordsFound`
test. -/
theorem mem_checkKeywordSet_singleton (ks : List String) (n : String) (h : ks ≠ []) :
    n ∈ checkKeywordSet ks [n] ↔ allKeywordsFound ks n = true := by
  unfold checkKeywordSet
  have hie : ¬ ks.isEmpty = true := fun hh => h (List.isEmpty_iff.mp hh)
  rw [if_neg hie]
  rw [List.mem_filter]
  simp

/-- C3 (counterexample): with the cinema keyword configuration `[[]]`
(one empty set), the cinema matcher matches the theatre and reports
`matched`, although `checkKeywordSet` — which the claim says is applied
per theatre name — matches nothing for an empty keyword set (the inlined
cinema copy of the matcher lacks `checkKeywordSet`'s empty-set guard). -/
theorem checkCinemaKeywords_empty_set_counterexample :
    (checkCinemaKeywords (some [([] : List String)]) [pvrTheater]).matched = true ∧
    (checkCinemaKeywords (some [([] : List String)]) [pvrTheater]).matchingTheaters = [pvrTheater] ∧
    checkKeywordSet [] [pvrTheater.name] = [] :=
  ⟨by decide, by decide, by decide⟩

/-- C3 (amended): for every configured cinema keyword configuration all
of whose sets are non-empty, `checkCinemaKeywords` computes per-theatre
matching equivalent to `checkKeywordSet` applied to the theatre name: a
name is among the matching theatres' names iff some input theatre
carries it and satisfies at least one configured set, and `matched` is
true iff at least one theatre satisfies at least one set. (For an empty
configured set the two matchers diverge: the cinema matcher accepts
every theatre, `checkKeywordSet` accepts none.) -/
theorem checkCinemaKeywords_equiv (kwss : List (List String)) (theaters : List Theater)
    (hne : kwss ≠ []) (hsets : ∀ ks ∈ kwss, ks ≠ []) :
    (∀ n, n ∈ (checkCinemaKeywords (some kwss) theaters).matchingTheaters.map Theater.name ↔
       ∃ t ∈ theaters, t.name = n ∧ ∃ ks ∈ kwss, t.name ∈ checkKeywordSet ks [t.name]) ∧
    ((checkCinemaKeywords (some kwss) theaters).matched = true ↔
       ∃ t ∈ theaters, ∃ ks ∈ kwss, t.name ∈ checkKeywordSet ks [t.name]) := by
  have hie : ¬ kwss.isEmpty = true := fun hh => hne (List.isEmpty_iff.mp hh)
  have hres : checkCinemaKeywords (some kwss) theaters =
      { matched := !(theaters.foldl (cinemaOuterStep kwss) ([], [])).1.isEmpty,
        matchingTheaters := (theaters.foldl (cinemaOuterStep kwss) ([], [])).2,
        matchedSets := (theaters.foldl (cinemaOuterStep kwss) ([], [])).1 } := by
    unfold checkCinemaKeywords
    dsimp only
    rw [if_neg hie]
  rw [hres]
  constructor
  · intro n
    have h := cinemaOuter_names kwss theaters ([], []) n
    simp only [List.map_nil, List.not_mem_nil, false_or] at h
    rw [h]
    constructor
    · rintro ⟨t, ht, h1, h2⟩
      refine ⟨t, ht, h1, ?_⟩
      rw [exists_enum_snd (fun ks => allKeywordsFound ks t.name = true) kwss] at h2
      obtain ⟨ks, hks, hkm⟩ := h2
      exact ⟨ks, hks, (mem_checkKeywordSet_singleton ks t.name (hsets ks hks)).mpr hkm⟩
    · rintro ⟨t, ht, h1, ks, hks, hkm⟩
      refine ⟨t, ht, h1, ?_⟩
      rw [exists_enum_snd (fun ks => allKeywordsFound ks t.name = true) kwss]
      exact ⟨ks, hks, (mem_checkKeywordSet_singleton ks t.name (hsets ks hks)).mp hkm⟩
  · have h := cinemaOuter_fst_empty kwss theaters ([], [])
    simp only [true_and] at h
    constructor
    · intro hb
      have hnem : (theaters.foldl (cinemaOuterStep kwss) ([], [])).1 ≠ [] := by
        intro hnil
        rw [hnil] at hb
        simp at hb
      have := (not_iff_not.mpr h).mp (by simpa using hnem)
      push_neg at this
      obtain ⟨t, ht, p, hp, hv⟩ := this
      have hkm : allKeywordsFound p.2 t.name = true := by
        cases hx : allKeywordsFound p.2 t.name with
        | false => exact absurd hx hv
        | true => rfl
      have hx : ∃ q ∈ kwss.enum, allKeywordsFound q.2 t.name = true := ⟨p, hp, hkm⟩
      rw [exists_enum_snd (fun ks => allKeywordsFound ks t.name = true) kwss] at hx
      obtain ⟨ks, hks, hkm2⟩ := hx
      exact ⟨t, ht, ks, hks, (mem_checkKeywordSet_singleton ks t.name (hsets ks hks)).mpr hkm2⟩
    · rintro ⟨t, ht, ks, hks, hkm⟩
      have hkm2 : allKeywordsFound ks t.name = true :=
        (mem_checkKeywordSet_singleton ks t.name (hsets ks hks)).mp hkm
      have hx : ∃ q ∈ kwss.enum, allKeywordsFound q.2 t.name = true := by
        rw [exists_enum_snd (fun ks => allKeywordsFound ks t.name = true) kwss]
        exact ⟨ks, hks, hkm2⟩
      obtain ⟨q, hq, hqv⟩ := hx
      have hnem : (theaters.foldl (cinemaOuterStep kwss) ([], [])).1 ≠ [] := by
        intro hnil
        have := h.mp hnil
        have := this t ht q hq
        rw [hqv] at this
        exact Bool.noConfusion this
      simpa using hnem

/-- Witness for the amended C3 at a concrete configuration and theatre
list. -/
theorem checkCinemaKeywords_equiv_witness :
    "City Mall - IMAX" ∈
      (checkCinemaKeywords (some [["imax"]]) [imaxTheater]).matchingTheaters.map Theater.name := by
  have h := (checkCinemaKeywords_equiv [["imax"]] [imaxTheater] (by decide)
    (by decide)).1 "City Mall - IMAX"
  exact h.mpr ⟨imaxTheater, by decide, rfl, ["imax"], by decide, by decide⟩

/-! ## C7: the film-info resolver keeps one entry per code, first
non-null date wins -/

/-- The per-movie fold of `extractFilmInfo` equals the fold over the
flattened candidate-event list. -/
theorem extractFilmInfo_eq_fold (matchingFilms : List String) :
    ∀ (movies : List MovieRec) (m : List (String × Option String)),
      movies.foldl (fun m movie =>
        (filmInfoEventsA movie matchingFilms ++ filmInfoEventsB movie matchingFilms).foldl
          updFilmInfo m) m =
      (filmInfoEvents movies matchingFilms).foldl updFilmInfo m := by
  intro movies
  induction movies with
  | nil => intro m; rfl
  | cons mv rest ih =>
    intro m
    rw [List.foldl_cons, ih]
    rw [show filmInfoEvents (mv :: rest) matchingFilms =
      (filmInfoEventsA mv matchingFilms ++ filmInfoEventsB mv matchingFilms) ++
        filmInfoEvents rest matchingFilms by rw [filmInfoEvents, List.append_assoc]]
    simp [List.foldl_append]

/-- `extractFilmInfo` as a single fold over its candidate events. -/
theorem extractFilmInfo_eq (movies : List MovieRec) (matchingFilms : List String) :
    extractFilmInfo movies matchingFilms =
      (filmInfoEvents movies matchingFilms).foldl updFilmInfo [] :=
  extractFilmInfo_eq_fold matchingFilms movies []

/-- Lookup distributes over association-list append. -/
theorem lkAssoc_append (m1 m2 : List (String × Option String)) (c : String) :
    lkAssoc (m1 ++ m2) c =
      match lkAssoc m1 c with
      | some v => some v
      | none => lkAssoc m2 c := by
  induction m1 with
  | nil => rfl
  | cons p t ih =>
    by_cases h : p.1 = c
    · simp [lkAssoc, h]
    · simp [lkAssoc, h, ih]

/-- Lookup after an in-place overwrite of every entry with key `ck`. -/
theorem lkAssoc_overwrite (m : List (String × Option String)) (ck : String) (v : Option String)
    (c2 : String) :
    lkAssoc (m.map (fun p => if p.1 = ck then (p.1, v) else p)) c2 =
      if c2 = ck then (lkAssoc m c2).map (fun _ => v) else lkAssoc m c2 := by
  induction m with
  | nil => by_cases h : c2 = ck <;> simp [lkAssoc, h]
  | cons p t ih =>
    by_cases h1 : p.1 = ck
    · by_cases h2 : p.1 = c2
      · have hc : c2 = ck := by rw [← h2, h1]
        simp [lkAssoc, h1, h2, hc]
      · have hc : ¬ c2 = ck := fun hh => h2 (h1.trans hh.symm)
        have hc2 : ¬ ck = c2 := fun hh => hc hh.symm
        simp [lkAssoc, h1, h2, hc, hc2, ih]
    · by_cases h2 : p.1 = c2
      · have hc : ¬ c2 = ck := fun hh => h1 ((h2.trans hh))
        have hc2 : ¬ ck = c2 := fun hh => hc hh.symm
        simp [lkAssoc, h1, h2, hc, hc2]
      · simp [lkAssoc, h1, h2, ih]

/-- A failed lookup means the key is absent. -/
theorem lkAssoc_eq_none (m : List (String × Option String)) (c : String) :
    lkAssoc m c = none ↔ c ∉ m.map Prod.fst := by
  induction m with
  | nil => simp [lkAssoc]
  | cons p t ih =>
    by_cases h : p.1 = c
    · simp [lkAssoc, h]
    · have h2 : ¬ c = p.1 := fun hh => h hh.symm
      simp [lkAssoc, h, h2, ih]

/-- A successful lookup returns a pair of the list. -/
theorem mem_of_lkAssoc (m : List (String × Option String)) (c : String) (v : Option String) :
    lkAssoc m c = some v → (c, v) ∈ m := by
  induction m with
  | nil => intro h; exact Option.noConfusion h
  | cons p t ih =>
    intro h
    by_cases hp : p.1 = c
    · rw [lkAssoc, if_pos hp] at h
      have hv := Option.some.inj h
      exact List.mem_cons.mpr (Or.inl (by rw [← hp, ← hv]))
    · rw [lkAssoc, if_neg hp] at h
      exact List.mem_cons_of_mem p (ih h)

/-- With duplicate-free keys, list membership determines the lookup. -/
theorem lkAssoc_of_mem (m : List (String × Option String))
    (hnd : (m.map Prod.fst).Nodup) (c : String) (v : Option String)
    (hm : (c, v) ∈ m) : lkAssoc m c = some v := by
  induction m with
  | nil => cases hm
  | cons p t ih =>
    rw [List.map_cons, List.nodup_cons] at hnd
    obtain ⟨hnotin, hndt⟩ := hnd
    rcases List.mem_cons.mp hm with h | h
    · rw [← h]
      simp [lkAssoc]
    · have h1 : p.1 ≠ c := by
        intro he
        apply hnotin
        rw [he]
        exact List.mem_map.mpr ⟨(c, v), h, rfl⟩
      rw [lkAssoc, if_neg h1]
      exact ih hndt h

/-- The conditional map update adds the key exactly when it was
absent. -/
theorem updFilmInfo_keys_absent (m : List (String × Option String)) (e : String × Option String)
    (h : lkAssoc m e.1 = none) :
    (updFilmInfo m e).map Prod.fst = m.map Prod.fst ++ [e.1] := by
  unfold updFilmInfo
  rw [h]
  simp

/-- The conditional map update preserves the key set when the key is
present. -/
theorem updFilmInfo_keys_present (m : List (String × Option String)) (e : String × Option String)
    (stored : Option String) (h : lkAssoc m e.1 = some stored) :
    (updFilmInfo m e).map Prod.fst = m.map Prod.fst := by
  simp only [updFilmInfo, h]
  split
  · rw [List.map_map]
    apply List.map_congr_left
    intro a _
    by_cases hh : a.1 = e.1 <;> simp [hh]
  · rfl

/-- Folding the conditional update preserves duplicate-freeness of the
keys. -/
theorem foldl_upd_keys_nodup (evs : List (String × Option String)) :
    ∀ m : List (String × Option String),
      (m.map Prod.fst).Nodup → (((evs.foldl updFilmInfo m).map Prod.fst).Nodup) := by
  induction evs with
  | nil => intro m h; simpa
  | cons e rest ih =>
    intro m h
    rw [List.foldl_cons]
    apply ih
    cases hlk : lkAssoc m e.1 with
    | none =>
      rw [updFilmInfo_keys_absent m e hlk]
      have hni : e.1 ∉ m.map Prod.fst := (lkAssoc_eq_none m e.1).mp hlk
      rw [List.nodup_append]
      refine ⟨h, List.nodup_singleton _, ?_⟩
      intro a ha hb
      rw [List.mem_singleton] at hb
      rw [hb] at ha
      exact hni ha
    | some stored =>
      rw [updFilmInfo_keys_present m e stored hlk]
      exact h

/-- The conditional update never stores an empty-string date when input
and state avoid it. -/
theorem updFilmInfo_valsOk (m : List (String × Option String)) (e : String × Option String)
    (hm : ∀ p ∈ m, p.2 ≠ some "") (he : e.2 ≠ some "") :
    ∀ p ∈ updFilmInfo m e, p.2 ≠ some "" := by
  intro p hp
  cases hlk : lkAssoc m e.1 with
  | none =>
    simp only [updFilmInfo, hlk] at hp
    rcases List.mem_append.mp hp with h | h
    · exact hm p h
    · have hpe := List.mem_singleton.mp h
      rw [hpe]
      exact he
  | some stored =>
    simp only [updFilmInfo, hlk] at hp
    by_cases hcond : stored = none ∨ stored = some ""
    · rw [if_pos hcond] at hp
      obtain ⟨q, hq, hqe⟩ := List.mem_map.mp hp
      by_cases hh : q.1 = e.1
      · rw [← hqe]
        simp only [hh, if_true]
        exact he
      · rw [← hqe]
        simp only [hh, if_false]
        exact hm q hq
    · rw [if_neg hcond] at hp
      exact hm p hp

/-- The central fold characterization: after folding the candidate
events, the value stored for a code is its original truthy value if it
had one, and otherwise the first non-null candidate among the events. -/
theorem foldl_upd_lk (c : String) :
    ∀ (evs : List (String × Option String)) (m : List (String × Option String)),
      (∀ e ∈ evs, e.2 ≠ some "") → (∀ p ∈ m, p.2 ≠ some "") →
      lkAssoc (evs.foldl updFilmInfo m) c =
        match lkAssoc m c with
        | some v => some (if v.isSome then v else firstSome (valuesAt c evs))
        | none => if valuesAt c evs = [] then none else some (firstSome (valuesAt c evs)) := by
  intro evs
  induction evs with
  | nil =>
    intro m _ _
    cases hlk : lkAssoc m c with
    | none => simp [hlk, valuesAt]
    | some v => cases v <;> simp [hlk, valuesAt, firstSome]
  | cons e rest ih =>
    intro m hevs hm
    have hrest : ∀ x ∈ rest, x.2 ≠ some "" := fun x hx => hevs x (by simp [hx])
    have he : e.2 ≠ some "" := hevs e (by simp)
    have hm2 : ∀ p ∈ updFilmInfo m e, p.2 ≠ some "" := updFilmInfo_valsOk m e hm he
    rw [List.foldl_cons, ih (updFilmInfo m e) hrest hm2]
    by_cases hc : e.1 = c
    · have hv : valuesAt c (e :: rest) = e.2 :: valuesAt c rest := by
        simp [valuesAt, hc]
      cases hlk : lkAssoc m c with
      | none =>
        have hlkm : lkAssoc m e.1 = none := by rw [hc]; exact hlk
        have hlk2 : lkAssoc (updFilmInfo m e) c = some e.2 := by
          simp only [updFilmInfo, hlkm]
          rw [lkAssoc_append, hlk]
          simp [lkAssoc, hc]
        rw [hlk2, hv]
        simp [firstSome]
      | some v =>
        have hlkm : lkAssoc m e.1 = some v := by rw [hc]; exact hlk
        have hvne : v ≠ some "" := hm (c, v) (mem_of_lkAssoc m c v hlk)
        by_cases hvs : v.isSome
        · have hcond : ¬ (v = none ∨ v = some "") := by
            rintro (h | h)
            · rw [h] at hvs
              simp at hvs
            · exact hvne h
          have hup : updFilmInfo m e = m := by
            simp only [updFilmInfo, hlkm, if_neg hcond]
          rw [hup, hlk]
          simp [hvs]
        · have hvn : v = none := by
            cases v with
            | none => rfl
            | some s => simp at hvs
          subst hvn
          have hup : lkAssoc (updFilmInfo m e) c = some e.2 := by
            simp only [updFilmInfo, hlkm, true_or, if_true]
            rw [lkAssoc_overwrite]
            rw [if_pos hc.symm, hlk]
            rfl
          rw [hup, hv]
          simp [firstSome]
    · have hv : valuesAt c (e :: rest) = valuesAt c rest := by
        simp [valuesAt, hc]
      have hlkeq : lkAssoc (updFilmInfo m e) c = lkAssoc m c := by
        cases hlk : lkAssoc m e.1 with
        | none =>
          simp only [updFilmInfo, hlk]
          rw [lkAssoc_append]
          cases hlk2 : lkAssoc m c with
          | some v => rfl
          | none => simp [lkAssoc, hc]
        | some stored =>
          simp only [updFilmInfo, hlk]
          by_cases hcond : stored = none ∨ stored = some ""
          · rw [if_pos hcond, lkAssoc_overwrite]
            rw [if_neg (fun hh => hc hh.symm)]
          · rw [if_neg hcond]
      rw [hlkeq, hv]

/-- `jsOrS` never yields an empty string unless its fallback does. -/
theorem jsOrS_ne_empty (a b : Option String) (hb : b ≠ some "") : jsOrS a b ≠ some "" := by
  unfold jsOrS
  by_cases ht : jsTruthyS a
  · rw [if_pos ht]
    intro h
    rw [h] at ht
    have : jsTruthyS (some "") = false := rfl
    rw [this] at ht
    exact Bool.noConfusion ht
  · rw [if_neg ht]
    exact hb

/-- `formatDateFromParts` is never the empty string. -/
theorem formatDateFromParts_ne_empty (y m d : Nat) : formatDateFromParts y m d ≠ "" := by
  unfold formatDateFromParts
  intro h
  have hl := congrArg String.length h
  rw [String.length_append, String.length_append, String.length_append,
    String.length_append] at hl
  have h1 : ("-" : String).length = 1 := rfl
  have h0 : ("" : String).length = 0 := rfl
  rw [h1, h0] at hl
  omega

/-- The year/month/day fallback date is never an empty string. -/
theorem partsDate_ne_empty (movie : MovieRec) : partsDate movie ≠ some "" := by
  unfold partsDate
  split
  · split
    · intro h
      exact formatDateFromParts_ne_empty _ _ _ (Option.some.inj h)
    · exact Option.noConfusion
  · exact Option.noConfusion

/-- The movie-level date is never an empty string. -/
theorem movieLevelDate_ne_empty (movie : MovieRec) : movieLevelDate movie ≠ some "" :=
  jsOrS_ne_empty _ _ (partsDate_ne_empty movie)

/-- Candidate events of loop A never carry an empty-string date. -/
theorem filmInfoEventsA_vals (movie : MovieRec) (matchingFilms : List String) :
    ∀ e ∈ filmInfoEventsA movie matchingFilms, e.2 ≠ some "" := by
  intro e he
  simp only [filmInfoEventsA] at he
  split at he
  · obtain ⟨film, _, hf⟩ := List.mem_filterMap.mp he
    cases hcc : film.filmCommonCode with
    | none =>
      simp only [hcc] at hf
      exact Option.noConfusion hf
    | some code =>
      simp only [hcc] at hf
      split at hf
      · have hfe := Option.some.inj hf
        rw [← hfe]
        exact jsOrS_ne_empty _ _ (movieLevelDate_ne_empty movie)
      · exact Option.noConfusion hf
  · exact absurd he (List.not_mem_nil e)

/-- Candidate events of loop B never carry an empty-string date. -/
theorem filmInfoEventsB_vals (movie : MovieRec) (matchingFilms : List String) :
    ∀ e ∈ filmInfoEventsB movie matchingFilms, e.2 ≠ some "" := by
  intro e he
  unfold filmInfoEventsB at he
  obtain ⟨film, _, hf⟩ := List.mem_filterMap.mp he
  cases hn : film.filmName with
  | none =>
    simp only [hn] at hf
    exact Option.noConfusion hf
  | some n =>
    cases hcc : film.filmCommonCode with
    | none =>
      simp only [hn, hcc] at hf
      exact Option.noConfusion hf
    | some code =>
      simp only [hn, hcc] at hf
      split at hf
      · have hfe := Option.some.inj hf
        rw [← hfe]
        exact jsOrS_ne_empty _ _ (movieLevelDate_ne_empty movie)
      · exact Option.noConfusion hf

/-- No candidate event carries an empty-string date. -/
theorem filmInfoEvents_vals (movies : List MovieRec) (matchingFilms : List String) :
    ∀ e ∈ filmInfoEvents movies matchingFilms, e.2 ≠ some "" := by
  induction movies with
  | nil => intro e he; cases he
  | cons mv rest ih =>
    intro e he
    rw [filmInfoEvents] at he
    rcases List.mem_append.mp he with h | h
    · rcases List.mem_append.mp h with h2 | h2
      · exact filmInfoEventsA_vals mv matchingFilms e h2
      · exact filmInfoEventsB_vals mv matchingFilms e h2
    · exact ih e h

/-- C7: `extractFilmInfo` returns at most one entry per film identifier
(its key list is duplicate-free), and the date attached to an identifier
is the first non-null date among its candidate occurrences in traversal
order — a later null occurrence never overwrites a known date. -/
theorem extractFilmInfo_first_nonnull (movies : List MovieRec) (matchingFilms : List String) :
    ((extractFilmInfo movies matchingFilms).map Prod.fst).Nodup ∧
    ∀ c v, (c, v) ∈ extractFilmInfo movies matchingFilms →
      v = firstSome (valuesAt c (filmInfoEvents movies matchingFilms)) := by
  have hee := extractFilmInfo_eq movies matchingFilms
  have hevs := filmInfoEvents_vals movies matchingFilms
  have hnd : ((extractFilmInfo movies matchingFilms).map Prod.fst).Nodup := by
    rw [hee]
    exact foldl_upd_keys_nodup _ [] (by simp)
  refine ⟨hnd, ?_⟩
  intro c v hm
  have hlk : lkAssoc (extractFilmInfo movies matchingFilms) c = some v :=
    lkAssoc_of_mem _ hnd c v hm
  rw [hee] at hlk
  rw [foldl_upd_lk c (filmInfoEvents movies matchingFilms) [] hevs (by simp)] at hlk
  have hbase : lkAssoc [] c = none := rfl
  rw [hbase] at hlk
  by_cases hve : valuesAt c (filmInfoEvents movies matchingFilms) = []
  · rw [if_pos hve] at hlk
    exact Option.noConfusion hlk
  · rw [if_neg hve] at hlk
    exact (Option.some.inj hlk).symm

/-- Witness for C7: across two occurrences of code `C1` — first with a
null date, then with a known one — the retained date is the later,
non-null one, the first non-null encountered. -/
theorem extractFilmInfo_first_nonnull_witness :
    (some "2025-11-14" : Option String) =
      firstSome (valuesAt "C1" (filmInfoEvents twoOccurrenceMovies ["A"])) :=
  (extractFilmInfo_first_nonnull twoOccurrenceMovies ["A"]).2 "C1" (some "2025-11-14") (by decide)
